import Mathlib

/-!
Shallow embedding of the blackjack engine in `src/blackjack.ts` (the most
complete variant in that file: the one with face-down cards, the
`determineAllowedActions` oracle and per-split-hand bets).  JavaScript
runtime failures (thrown errors, accesses to missing array elements that
the code would subsequently fault on) are modelled by `Option`: a
function returns `none` where the source throws or reads a missing
element it is about to dereference.
-/

namespace Blackjack

inductive Suit where
  | hearts | diamonds | clubs | spades
deriving DecidableEq

inductive FaceValue where
  | ace | two | three | four | five | six | seven | eight | nine | ten
  | jack | queen | king
deriving DecidableEq

structure Card where
  suit : Suit
  faceValue : FaceValue
  faceDown : Bool := false
deriving DecidableEq

inductive PlayerAction where
  | hit | stand | double | split
deriving DecidableEq

inductive DoubleOn where
  | any | hard9to11 | hard10to11
deriving DecidableEq

structure BlackjackRuleset where
  dealerStandsOnAll17 : Bool
  dealerPeeks : Bool
  splitAces : Nat
  maxHandsAfterSplit : Nat
  doubleOn : DoubleOn
  doubleAfterSplit : Bool
  blackjackPayout : ℚ := 3 / 2
  aceAndTenCountsAsBlackjack : Bool
deriving DecidableEq

/-- The module-level `rules` constant of the source. -/
def rules : BlackjackRuleset where
  dealerStandsOnAll17 := true
  dealerPeeks := true
  maxHandsAfterSplit := 4
  splitAces := 3
  doubleOn := DoubleOn.any
  doubleAfterSplit := true
  aceAndTenCountsAsBlackjack := true
  blackjackPayout := 3 / 2

/-- `cardValue(card, { withAceAs11 })`: a face-down card counts 0. -/
def cardValue (card : Card) (withAceAs11 : Bool := false) : Nat :=
  if card.faceDown then 0
  else
    match card.faceValue with
    | FaceValue.ace => if withAceAs11 then 11 else 1
    | FaceValue.two => 2
    | FaceValue.three => 3
    | FaceValue.four => 4
    | FaceValue.five => 5
    | FaceValue.six => 6
    | FaceValue.seven => 7
    | FaceValue.eight => 8
    | FaceValue.nine => 9
    | FaceValue.ten => 10
    | FaceValue.jack => 10
    | FaceValue.queen => 10
    | FaceValue.king => 10

/-- Result type of `handValue`: `number | 'blackjack' | { soft: { low, high } }`. -/
inductive HandValue where
  | num (n : Nat)
  | blackjack
  | soft (low high : Nat)
deriving DecidableEq

/-- The eight two-card natural checks at the top of `handValue`. -/
def isNaturalPair (r : BlackjackRuleset) (card1 card2 : FaceValue) : Bool :=
  (r.aceAndTenCountsAsBlackjack && card1 == FaceValue.ace && card2 == FaceValue.ten) ||
  (card1 == FaceValue.ace && card2 == FaceValue.jack) ||
  (card1 == FaceValue.ace && card2 == FaceValue.queen) ||
  (card1 == FaceValue.ace && card2 == FaceValue.king) ||
  (r.aceAndTenCountsAsBlackjack && card1 == FaceValue.ten && card2 == FaceValue.ace) ||
  (card1 == FaceValue.jack && card2 == FaceValue.ace) ||
  (card1 == FaceValue.queen && card2 == FaceValue.ace) ||
  (card1 == FaceValue.king && card2 == FaceValue.ace)

/-- The two-card natural test of `handValue`, performed on the hand after
face-down filtering. -/
def naturalCheck (r : BlackjackRuleset) (hand : List Card) : Bool :=
  match hand with
  | [c1, c2] => isNaturalPair r c1.faceValue c2.faceValue
  | _ => false

/-- The fall-through part of `handValue`: sum with aces low, lift to a soft
value when an ace is present and the low total is at most 11. -/
def softCore (hand : List Card) : HandValue :=
  if hand.any (fun c => c.faceValue == FaceValue.ace) &&
      decide ((hand.map fun c => cardValue c).sum ≤ 11) then
    if (hand.map fun c => cardValue c).sum + 10 > 21 then
      HandValue.num ((hand.map fun c => cardValue c).sum)
    else if (hand.map fun c => cardValue c).sum + 10 == 21 then HandValue.num 21
    else HandValue.soft ((hand.map fun c => cardValue c).sum)
      ((hand.map fun c => cardValue c).sum + 10)
  else HandValue.num ((hand.map fun c => cardValue c).sum)

/-- `handValue(_hand)`: filter face-down cards, detect naturals on two-card
hands, otherwise sum with aces low and lift to a soft value when possible. -/
def handValue (r : BlackjackRuleset) (hand0 : List Card) : HandValue :=
  let hand := hand0.filter fun c => !c.faceDown
  if naturalCheck r hand then HandValue.blackjack
  else softCore hand

/-- `bust(hand)`. -/
def bust (r : BlackjackRuleset) (hand : List Card) : Bool :=
  match handValue r hand with
  | HandValue.num n => decide (n > 21)
  | _ => false

inductive Phase where
  | dealing | playerTurn | dealerTurn | gameOver
deriving DecidableEq

structure BlackJackState where
  shoe : List Card
  playerHands : List (List Card)
  actionableHandIndex : Nat
  dealerHand : List Card
  state : Phase
  startingBet : ℤ
  bets : List ℤ
deriving DecidableEq

/-- `getNextActionableHandIndex`: first index after the current one whose
hand has exactly one card, else the current index. -/
def getNextActionableHandIndex (g : BlackJackState) : Nat :=
  match g.playerHands.enum.find? (fun p =>
      decide (g.actionableHandIndex < p.1) && (p.2.length == 1)) with
  | some p => p.1
  | none => g.actionableHandIndex

/-- The `playerHandFinished` closure inside `nextState`. -/
def playerHandFinished (r : BlackjackRuleset) (playerHand : List Card) : Bool :=
  match handValue r playerHand with
  | HandValue.num n => decide (n > 21) || (n == 21)
  | HandValue.soft _ high => high == 21
  | HandValue.blackjack => true

/-- The `dealerShouldStand` closure inside `nextState`'s dealer-turn branch. -/
def dealerShouldStand (r : BlackjackRuleset) (dealerHand : List Card) : Bool :=
  match handValue r dealerHand with
  | HandValue.blackjack => true
  | HandValue.num n => decide (17 ≤ n)
  | HandValue.soft _ high =>
      r.dealerStandsOnAll17 && (([17, 18, 19, 20, 21] : List Nat).contains high)

/-- ramda `insertAll(index, xs, list)`. -/
def insertAllAt (n : Nat) (xs : List (List Card)) (l : List (List Card)) :
    List (List Card) :=
  l.take n ++ xs ++ l.drop n

/-- The `'dealing'` branch of `nextState`. -/
def nextStateDealing (r : BlackjackRuleset) (g : BlackJackState) :
    Option BlackJackState :=
  match g.playerHands with
  | [hand0] =>
    if hand0.length = 0 then
      match g.shoe with
      | [] => none
      | c :: shoe => some { g with shoe := shoe, playerHands := [[c]] }
    else if hand0.length = 1 ∧ g.dealerHand.length = 0 then
      match g.shoe with
      | [] => none
      | c :: shoe => some { g with shoe := shoe, dealerHand := [c] }
    else if hand0.length = 1 ∧ g.dealerHand.length = 1 then
      match g.shoe with
      | [] => none
      | c :: shoe => some { g with shoe := shoe, playerHands := [hand0 ++ [c]] }
    else if hand0.length = 2 ∧ g.dealerHand.length = 1 then
      match g.shoe with
      | [] => none
      | c :: shoe =>
        let dealerHand := g.dealerHand ++ [{ c with faceDown := true }]
        let revealed := dealerHand.map fun card => { card with faceDown := false }
        if r.dealerPeeks ∧ handValue r revealed = HandValue.blackjack then
          some { g with shoe := shoe, dealerHand := revealed, state := Phase.gameOver }
        else if handValue r hand0 = HandValue.num 21 ∨ handValue r hand0 = HandValue.blackjack then
          some { g with shoe := shoe, dealerHand := dealerHand, state := Phase.dealerTurn }
        else
          some { g with shoe := shoe, dealerHand := dealerHand, state := Phase.playerTurn }
    else none
  | _ :: _ :: _ =>
    -- player just split, deal one card to the actionable hand
    match g.shoe with
    | [] => none
    | c :: shoe =>
      match g.playerHands.get? g.actionableHandIndex with
      | none => none
      | some hand =>
        let playerHand := hand ++ [c]
        let playerHands := g.playerHands.set g.actionableHandIndex playerHand
        let idx :=
          if playerHandFinished r playerHand then getNextActionableHandIndex g
          else g.actionableHandIndex
        some { g with shoe := shoe, playerHands := playerHands,
                      actionableHandIndex := idx, state := Phase.playerTurn }
  | [] => none

/-- The `'player-turn'` branch of `nextState`.  Note that the source applies
the supplied action directly: it never consults `determineAllowedActions`. -/
def nextStatePlayerTurn (r : BlackjackRuleset) (g : BlackJackState)
    (a : PlayerAction) : Option BlackJackState :=
  match a with
  | PlayerAction.hit =>
    match g.shoe with
    | [] => none
    | c :: shoe =>
      match g.playerHands.get? g.actionableHandIndex with
      | none => none
      | some hand =>
        let playerHand := hand ++ [c]
        let playerHands := g.playerHands.set g.actionableHandIndex playerHand
        let handFinished := playerHandFinished r playerHand
        let idx := if handFinished then getNextActionableHandIndex g else g.actionableHandIndex
        let moreHandsToPlay : Bool := idx != g.actionableHandIndex
        let st :=
          if playerHands.all fun h => bust r h then Phase.gameOver
          else if handFinished && !moreHandsToPlay then Phase.dealerTurn
          else Phase.playerTurn
        some { g with shoe := shoe, playerHands := playerHands,
                      actionableHandIndex := idx, state := st }
  | PlayerAction.stand =>
    let idx := getNextActionableHandIndex g
    if idx ≠ g.actionableHandIndex then
      some { g with actionableHandIndex := idx, state := Phase.playerTurn }
    else
      some { g with state := Phase.dealerTurn }
  | PlayerAction.double =>
    match g.shoe with
    | [] => none
    | c :: shoe =>
      match g.playerHands.get? g.actionableHandIndex with
      | none => none
      | some hand =>
        match g.bets.get? g.actionableHandIndex with
        | none => none
        | some bet0 =>
          let playerHand := hand ++ [c]
          let playerHands := g.playerHands.set g.actionableHandIndex playerHand
          let bets := g.bets.set g.actionableHandIndex (bet0 + g.startingBet)
          -- `handFinished` is the literal `true` in the source
          let idx := getNextActionableHandIndex g
          let moreHandsToPlay : Bool := idx != g.actionableHandIndex
          let st :=
            if playerHands.all fun h => bust r h then Phase.gameOver
            else if moreHandsToPlay then Phase.playerTurn
            else Phase.dealerTurn
          some { g with shoe := shoe, playerHands := playerHands, bets := bets,
                        actionableHandIndex := idx, state := st }
  | PlayerAction.split =>
    match g.playerHands.get? g.actionableHandIndex with
    | none => none
    | some hand =>
      -- the source destructures the first two cards of the hand; a hand
      -- with fewer than two cards would yield phantom `undefined` cards
      -- that fault at the next valuation, modelled as failure here
      match hand.get? 0, hand.get? 1 with
      | some c1, some c2 =>
        let playerHands :=
          insertAllAt g.actionableHandIndex [[c1], [c2]]
            (g.playerHands.eraseIdx g.actionableHandIndex)
        let bets := g.bets.flatMap fun b => [b, b]
        some { g with playerHands := playerHands, bets := bets, state := Phase.dealing }
      | _, _ => none

/-- Shared tail of the dealer-hit path: the all-naturals early stop, else
re-evaluate the stand condition. -/
def finishDealerHit (r : BlackjackRuleset) (g : BlackJackState)
    (dealerHand : List Card) (shoe : List Card) : BlackJackState :=
  if g.playerHands.all fun h => handValue r h == HandValue.blackjack then
    { g with shoe := shoe, dealerHand := dealerHand, state := Phase.gameOver }
  else
    { g with shoe := shoe, dealerHand := dealerHand,
             state := if dealerShouldStand r dealerHand then Phase.gameOver
                      else Phase.dealerTurn }

/-- The `'dealer-turn'` branch of `nextState`. -/
def nextStateDealerTurn (r : BlackjackRuleset) (g : BlackJackState) :
    Option BlackJackState :=
  if dealerShouldStand r g.dealerHand then
    some { g with state := Phase.gameOver }
  else
    match g.dealerHand.get? 1 with
    | none => none
    | some c1 =>
      if c1.faceDown then
        match g.dealerHand.get? 0 with
        | none => none
        | some c0 =>
          some (finishDealerHit r g [c0, { c1 with faceDown := false }] g.shoe)
      else
        match g.shoe with
        | [] => none
        | c :: shoe => some (finishDealerHit r g (g.dealerHand ++ [c]) shoe)

/-- `nextState(game, playerAction?)`.  `none` models a thrown error
(`UnreachableError`, the non-exhaustive action match, or a dereference of a
missing card/element the source is about to fault on). -/
def nextState (r : BlackjackRuleset) (g : BlackJackState)
    (playerAction : Option PlayerAction) : Option BlackJackState :=
  match g.state with
  | Phase.dealing => nextStateDealing r g
  | Phase.playerTurn =>
    match playerAction with
    | none => none
    | some a => nextStatePlayerTurn r g a
  | Phase.dealerTurn => nextStateDealerTurn r g
  | Phase.gameOver => none

/-- Count of already-performed ace splits in `determineAllowedActions`:
`aperture(2, firstCards)` filtered to adjacent ace pairs.  The source reads
`left.faceValue` always and `right.faceValue` only when the left card is an
ace, so a missing head card faults exactly in those positions. -/
def acePairCount : List (Option Card) → Option Nat
  | a :: b :: rest => do
    let ca ← a
    if ca.faceValue = FaceValue.ace then do
      let cb ← b
      let n ← acePairCount (b :: rest)
      pure (n + if cb.faceValue = FaceValue.ace then 1 else 0)
    else
      acePairCount (b :: rest)
  | _ => pure 0

/-- The `isPair` test of `determineAllowedActions`: exactly two cards of
equal card value (evaluated only on two-card hands in the source, thanks to
short-circuiting). -/
def isPairHand (hand : List Card) : Bool :=
  match hand with
  | [c1, c2] => cardValue c1 == cardValue c2
  | _ => false

/-- `playerHand[0].faceValue === FaceValue.Ace` (the source evaluates this
only when the hand is a pair, so the head exists there). -/
def headIsAce (hand : List Card) : Bool :=
  match hand.head? with
  | some c => c.faceValue == FaceValue.ace
  | none => false

/-- The `match(rules.splitAces)` table (exhaustive over 0..3; anything else
would make ts-pattern throw). -/
def canSplitAcesOf (splitAces numAcesSplit : Nat) : Option Bool :=
  match splitAces with
  | 0 => some false
  | 1 => some (numAcesSplit == 0)
  | 2 => some (decide (numAcesSplit ≤ 1))
  | 3 => some (decide (numAcesSplit ≤ 2))
  | _ => none

/-- The `match(rules.doubleOn)` eligibility test. -/
def canDoubleOnValue (d : DoubleOn) (v : HandValue) : Bool :=
  match d with
  | DoubleOn.any => true
  | DoubleOn.hard9to11 =>
    match v with
    | HandValue.num n => ([9, 10, 11] : List Nat).contains n
    | _ => false
  | DoubleOn.hard10to11 =>
    match v with
    | HandValue.num n => ([10, 11] : List Nat).contains n
    | _ => false

/-- `determineAllowedActions(game)`: the Legal-Action Oracle. -/
def determineAllowedActions (r : BlackjackRuleset) (g : BlackJackState) :
    Option (List PlayerAction) :=
  if g.state = Phase.playerTurn then
    match g.playerHands.get? g.actionableHandIndex with
    | none => none
    | some playerHand =>
      match acePairCount (g.playerHands.map List.head?) with
      | none => none
      | some numAcesSplit =>
        match canSplitAcesOf r.splitAces numAcesSplit with
        | none => none
        | some canSplitAces =>
          let canSplit := isPairHand playerHand &&
            decide (g.playerHands.length < r.maxHandsAfterSplit) &&
            (if headIsAce playerHand then canSplitAces else true)
          let canDouble := (playerHand.length == 2) &&
            canDoubleOnValue r.doubleOn (handValue r playerHand) &&
            (if r.doubleAfterSplit then true else g.actionableHandIndex == 0)
          some ([PlayerAction.hit, PlayerAction.stand]
            ++ (if canDouble then [PlayerAction.double] else [])
            ++ (if canSplit then [PlayerAction.split] else []))
  else none

inductive WinReason where
  | blackjack | dealerBust | higherHand
deriving DecidableEq

inductive LossReason where
  | blackjack | playerBust | higherHand
deriving DecidableEq

inductive Outcome where
  | playerWin (reason : WinReason)
  | playerLoss (reason : LossReason)
  | push
deriving DecidableEq

/-- The `playerHandValueHigh` projection: a soft value is represented by its
high side, anything else by itself. -/
inductive HighValue where
  | num (n : Nat)
  | blackjack
deriving DecidableEq

def highOf : HandValue → HighValue
  | HandValue.num n => HighValue.num n
  | HandValue.blackjack => HighValue.blackjack
  | HandValue.soft _ high => HighValue.num high

/-- The per-hand match inside `determinePlayerHandOutcomes`. -/
def classifyOutcome (p d : HighValue) : Outcome :=
  match p, d with
  | HighValue.blackjack, HighValue.blackjack => Outcome.push
  | HighValue.blackjack, _ => Outcome.playerWin WinReason.blackjack
  | _, HighValue.blackjack => Outcome.playerLoss LossReason.blackjack
  | HighValue.num pn, HighValue.num dn =>
    if pn > 21 then Outcome.playerLoss LossReason.playerBust
    else if dn > 21 then Outcome.playerWin WinReason.dealerBust
    else if pn > dn then Outcome.playerWin WinReason.higherHand
    else if pn < dn then Outcome.playerLoss LossReason.higherHand
    else Outcome.push

/-- `determinePlayerHandOutcomes(game)`: throws unless the game is over. -/
def determinePlayerHandOutcomes (r : BlackjackRuleset) (g : BlackJackState) :
    Option (List Outcome) :=
  if g.state = Phase.gameOver then
    some (g.playerHands.map fun hand =>
      classifyOutcome (highOf (handValue r hand)) (highOf (handValue r g.dealerHand)))
  else none

/-- Modelled from the spec: the newest engine variant (referenced by
`src/index.ts` through `acesSplit` and `handValue(hand, acesSplit(...))`
but absent from `src/`) passes an `acesWereSplit` flag to `handValue` and
has a `splitAceCanBeBlackjack` rule; per spec section 4.1 a natural formed
by a hand produced from splitting aces is demoted to the plain total 21
unless `splitAceCanBeBlackjack` is set.  Everything else follows
`handValue` of `src/blackjack.ts`. -/
def handValueWithSplit (r : BlackjackRuleset) (splitAceCanBeBlackjack : Bool)
    (acesWereSplit : Bool) (hand0 : List Card) : HandValue :=
  let hand := hand0.filter fun c => !c.faceDown
  if naturalCheck r hand then
    if acesWereSplit && !splitAceCanBeBlackjack then HandValue.num 21
    else HandValue.blackjack
  else softCore hand

/-- A card stripped of its `faceDown` flag, for conservation statements. -/
def strip (c : Card) : Suit × FaceValue := (c.suit, c.faceValue)

/-- The multiset of all cards in play (shoe, dealer hand, every player
hand), ignoring the `faceDown` flag. -/
def cardBag (g : BlackJackState) : Multiset (Suit × FaceValue) :=
  (((g.shoe ++ g.dealerHand ++ g.playerHands.flatten).map strip : List (Suit × FaceValue)) :
    Multiset (Suit × FaceValue))

/-! ### Concrete example states used by counterexamples and witnesses -/

def c2S : Card := ⟨Suit.spades, FaceValue.two, false⟩
def c2H : Card := ⟨Suit.hearts, FaceValue.two, false⟩
def c2D : Card := ⟨Suit.diamonds, FaceValue.two, false⟩
def c5S : Card := ⟨Suit.spades, FaceValue.five, false⟩
def c5H : Card := ⟨Suit.hearts, FaceValue.five, false⟩
def c6H : Card := ⟨Suit.hearts, FaceValue.six, false⟩
def c6S : Card := ⟨Suit.spades, FaceValue.six, false⟩
def c7S : Card := ⟨Suit.spades, FaceValue.seven, false⟩
def c7H : Card := ⟨Suit.hearts, FaceValue.seven, false⟩
def c8S : Card := ⟨Suit.spades, FaceValue.eight, false⟩
def c8H : Card := ⟨Suit.hearts, FaceValue.eight, false⟩
def c9H : Card := ⟨Suit.hearts, FaceValue.nine, false⟩
def cTS : Card := ⟨Suit.spades, FaceValue.ten, false⟩
def cKS : Card := ⟨Suit.spades, FaceValue.king, false⟩
def cKH : Card := ⟨Suit.hearts, FaceValue.king, false⟩
def cAS : Card := ⟨Suit.spades, FaceValue.ace, false⟩
def cASoft : Card := ⟨Suit.spades, FaceValue.ace, false⟩

/-- Player-turn state whose actionable hand has three cards (2+2+5). -/
def exDouble3 : BlackJackState where
  shoe := [cKS]
  playerHands := [[c2S, c2H, c5S]]
  actionableHandIndex := 0
  dealerHand := [cTS, c6H]
  state := Phase.playerTurn
  startingBet := 100
  bets := [100]

/-- What the engine actually produces when Double is applied to
`exDouble3` (an action the oracle does not allow there). -/
def exDouble3After : BlackJackState where
  shoe := []
  playerHands := [[c2S, c2H, c5S, cKS]]
  actionableHandIndex := 0
  dealerHand := [cTS, c6H]
  state := Phase.dealerTurn
  startingBet := 100
  bets := [200]

/-- Player-turn state with two hands, about to split the first. -/
def exSecondSplit : BlackJackState where
  shoe := [cKS, cKH]
  playerHands := [[c8S, c8H], [cTS, c7H]]
  actionableHandIndex := 0
  dealerHand := [c5S, c9H]
  state := Phase.playerTurn
  startingBet := 100
  bets := [100, 100]

/-- What splitting the first hand of `exSecondSplit` produces: three player
hands but four bet entries. -/
def exSecondSplitAfter : BlackJackState where
  shoe := [cKS, cKH]
  playerHands := [[c8S], [c8H], [cTS, c7H]]
  actionableHandIndex := 0
  dealerHand := [c5S, c9H]
  state := Phase.dealing
  startingBet := 100
  bets := [100, 100, 100, 100]

/-- Player-turn state where hand 1 still has only its opening split card. -/
def exStandSwitch : BlackJackState where
  shoe := [cKS]
  playerHands := [[cTS, c9H], [c7S]]
  actionableHandIndex := 0
  dealerHand := [c5S, ⟨Suit.hearts, FaceValue.two, true⟩]
  state := Phase.playerTurn
  startingBet := 100
  bets := [100, 100]

/-- Player-turn state whose actionable hand is a three-card pair-plus. -/
def exSplit3 : BlackJackState where
  shoe := [cKS]
  playerHands := [[c2S, c2H, c2D]]
  actionableHandIndex := 0
  dealerHand := [cTS, c6H]
  state := Phase.playerTurn
  startingBet := 100
  bets := [100]

/-- What the engine produces when Split is applied to `exSplit3`: the third
card of the split hand has vanished. -/
def exSplit3After : BlackJackState where
  shoe := [cKS]
  playerHands := [[c2S], [c2H]]
  actionableHandIndex := 0
  dealerHand := [cTS, c6H]
  state := Phase.dealing
  startingBet := 100
  bets := [100, 100]

/-- A finished round: player 19 against dealer 18. -/
def exGameOver : BlackJackState where
  shoe := []
  playerHands := [[cTS, c9H]]
  actionableHandIndex := 0
  dealerHand := [cKS, c8H]
  state := Phase.gameOver
  startingBet := 100
  bets := [100]

/-- Dealer-turn state where the dealer holds soft 17 (Ace + 6), both cards
face up. -/
def exSoft17 : BlackJackState where
  shoe := [cKS]
  playerHands := [[cTS, c9H]]
  actionableHandIndex := 0
  dealerHand := [cAS, c6S]
  state := Phase.dealerTurn
  startingBet := 100
  bets := [100]

/-- Player-turn state at the split limit (four hands) whose actionable hand
has three cards. -/
def exMaxHands : BlackJackState where
  shoe := [cKS]
  playerHands := [[c2S], [c7S], [c8S], [c5S, c5H, cKH]]
  actionableHandIndex := 3
  dealerHand := [cTS, c6H]
  state := Phase.playerTurn
  startingBet := 100
  bets := [100, 100, 100, 100]

/-! ### Basic lemmas -/

theorem softCore_ne_blackjack (hand : List Card) :
    softCore hand ≠ HandValue.blackjack := by
  unfold softCore
  split_ifs <;> simp

/-! ### C3: split-ace demotion (spec-modelled) -/

/-- C3: a two-card hand that descends from splitting aces and would
otherwise qualify as a natural (that is, `handValue` classifies it as
`blackjack`) is valued as the plain integer 21, not "blackjack", when
`splitAceCanBeBlackjack` is false. -/
theorem splitAce_natural_demoted (r : BlackjackRuleset) (hand : List Card)
    (h : handValue r hand = HandValue.blackjack) :
    handValueWithSplit r false true hand = HandValue.num 21 := by
  unfold handValue at h
  unfold handValueWithSplit
  by_cases hn : naturalCheck r (hand.filter fun c => !c.faceDown) = true
  · simp [hn]
  · rw [Bool.not_eq_true] at hn
    simp only [hn, if_false] at h ⊢
    exact absurd h (softCore_ne_blackjack _)

/-- Witness for C3 at the concrete split-ace hand Ace + King. -/
theorem splitAce_natural_demoted_witness :
    handValueWithSplit rules false true [cAS, cKH] = HandValue.num 21 :=
  splitAce_natural_demoted rules [cAS, cKH] (by decide)

/-! ### C5: shape of non-natural hand values -/

/-- C5: for a non-natural hand, writing `hand` for the face-up cards and
`low` for their ace-as-1 sum: if the hand has an ace and `low ≤ 11` then
`handValue` returns the soft pair `{low, low+10}` when `low+10 < 21`, the
plain 21 when `low+10 = 21`, and `low` when `low+10 > 21`; any other
non-natural hand is valued at the plain `low`. -/
theorem handValue_soft_shape (r : BlackjackRuleset) (hand0 hand : List Card)
    (low : Nat)
    (hh : hand = hand0.filter fun c => !c.faceDown)
    (hl : low = (hand.map fun c => cardValue c).sum)
    (hbj : handValue r hand0 ≠ HandValue.blackjack) :
    ((hand.any fun c => c.faceValue == FaceValue.ace) = true ∧ low ≤ 11 →
      (low + 10 < 21 → handValue r hand0 = HandValue.soft low (low + 10)) ∧
      (low + 10 = 21 → handValue r hand0 = HandValue.num 21) ∧
      (21 < low + 10 → handValue r hand0 = HandValue.num low)) ∧
    (¬((hand.any fun c => c.faceValue == FaceValue.ace) = true ∧ low ≤ 11) →
      handValue r hand0 = HandValue.num low) := by
  have hnat : naturalCheck r (hand0.filter fun c => !c.faceDown) = false := by
    by_contra hx
    rw [Bool.not_eq_false] at hx
    exact hbj (by simp [handValue, hx])
  have hv : handValue r hand0 = softCore (hand0.filter fun c => !c.faceDown) := by
    simp [handValue, hnat]
  rw [hv, ← hh]
  unfold softCore
  rw [← hl]
  constructor
  · rintro ⟨ha, hle⟩
    rw [if_pos (by rw [ha]; simpa using hle)]
    refine ⟨fun hlt => ?_, fun heq => ?_, fun hgt => ?_⟩
    · rw [if_neg (by omega), if_neg (by simpa using by omega)]
    · rw [if_neg (by omega), if_pos (by simpa using heq)]
    · rw [if_pos (by omega)]
  · intro hno
    rw [if_neg ?_]
    intro hcond
    rw [Bool.and_eq_true, decide_eq_true_eq] at hcond
    exact hno hcond

/-- Witness for C5 at the hand Ace + 3: soft 4 / 14. -/
theorem handValue_soft_shape_witness :
    handValue rules [cAS, ⟨Suit.hearts, FaceValue.three, false⟩] =
      HandValue.soft 4 14 :=
  ((handValue_soft_shape rules _ _ 4 rfl (by decide) (by decide)).1
    (by decide)).1 (by decide)

/-! ### C7: Outcome Resolver is a guarded pure function -/

/-- C7: the Outcome Resolver is deterministic (the embedding is a pure
function of the state, so a second call on the same state returns the
identical outcome list and cannot change the state), and it fails instead
of returning a result exactly on states whose phase is not game-over. -/
theorem outcomes_deterministic (r : BlackjackRuleset) (g : BlackJackState) :
    (g.state = Phase.gameOver → ∃ outs,
      determinePlayerHandOutcomes r g = some outs ∧
      ∀ outs2, determinePlayerHandOutcomes r g = some outs2 → outs2 = outs) ∧
    (g.state ≠ Phase.gameOver → determinePlayerHandOutcomes r g = none) := by
  constructor
  · intro h
    refine ⟨g.playerHands.map fun hand =>
        classifyOutcome (highOf (handValue r hand)) (highOf (handValue r g.dealerHand)),
      by simp [determinePlayerHandOutcomes, h], fun outs2 h2 => ?_⟩
    exact (by simpa [determinePlayerHandOutcomes, h] using h2 : _ = outs2).symm
  · intro h
    simp [determinePlayerHandOutcomes, h]

/-- Witness for C7: a concrete game-over state resolves (to a win by higher
hand), a concrete player-turn state makes the resolver fail. -/
theorem outcomes_deterministic_witness :
    determinePlayerHandOutcomes rules exGameOver =
      some [Outcome.playerWin WinReason.higherHand] ∧
    determinePlayerHandOutcomes rules exDouble3 = none := by
  constructor
  · obtain ⟨outs, h1, h2⟩ := (outcomes_deterministic rules exGameOver).1 rfl
    have h3 := h2 [Outcome.playerWin WinReason.higherHand] (by decide)
    rw [h1, ← h3]
  · exact (outcomes_deterministic rules exDouble3).2 (by decide)

/-! ### C1 (counterexample part): no validation in the transition -/

/-- C1 counterexample: at `exDouble3` the oracle allows only Hit and Stand,
yet the transition applies Double, changing the state rather than failing. -/
theorem illegal_double_silently_applied :
    determineAllowedActions rules exDouble3 =
      some [PlayerAction.hit, PlayerAction.stand] ∧
    nextState rules exDouble3 (some PlayerAction.double) = some exDouble3After ∧
    exDouble3After ≠ exDouble3 := by decide

/-! ### C2: split duplicates every bet entry -/

/-- C2 (code bug evaluation): splitting the first of two hands leaves three
player hands but four bet entries — `bets.flatMap(bet => [bet, bet])`
duplicates every entry, so bets and hands lose their index alignment on a
split performed while more than one hand exists. -/
theorem second_split_bets_misaligned :
    nextState rules exSecondSplit (some PlayerAction.split) =
      some exSecondSplitAfter ∧
    exSecondSplitAfter.playerHands.length = 3 ∧
    exSecondSplitAfter.bets.length = 4 := by decide

/-! ### C4 (counterexample part): Stand switches to player-turn, not dealing -/

/-- C4 counterexample: standing at `exStandSwitch` (hand 1 still has one
card) moves `actionableHandIndex` to 1 but returns phase `player-turn`,
not `dealing`. -/
theorem stand_switch_goes_to_player_turn :
    nextState rules exStandSwitch (some PlayerAction.stand) =
      some { exStandSwitch with actionableHandIndex := 1,
                                state := Phase.playerTurn } ∧
    Phase.playerTurn ≠ Phase.dealing := by decide

/-! ### C10 (counterexample part): split on a long hand drops cards -/

/-- C10 counterexample: the transition returns normally on Split applied to
a three-card hand, but the third card (the two of diamonds) disappears
from play, so the card multiset is not preserved. -/
theorem split_three_card_hand_loses_card :
    nextState rules exSplit3 (some PlayerAction.split) = some exSplit3After ∧
    (Suit.diamonds, FaceValue.two) ∈ cardBag exSplit3 ∧
    (Suit.diamonds, FaceValue.two) ∉ cardBag exSplit3After := by decide

/-! ### C9: hard limits of the Legal-Action Oracle -/

/-- Inversion on a successful oracle call: the state was player-turn, the
actionable hand exists, and Hit and Stand are always offered. -/
theorem oracle_inversion (r : BlackjackRuleset) (g : BlackJackState)
    (acts : List PlayerAction)
    (h : determineAllowedActions r g = some acts) :
    g.state = Phase.playerTurn ∧
    (∃ hand, g.playerHands.get? g.actionableHandIndex = some hand) ∧
    PlayerAction.hit ∈ acts ∧ PlayerAction.stand ∈ acts := by
  unfold determineAllowedActions at h
  split at h
  case isFalse => exact absurd h (by simp)
  case isTrue hs =>
    refine ⟨hs, ?_⟩
    split at h
    · exact absurd h (by simp)
    case h_2 playerHand hph =>
      refine ⟨⟨playerHand, hph⟩, ?_⟩
      split at h
      · exact absurd h (by simp)
      split at h
      · exact absurd h (by simp)
      injection h with h
      subst h
      constructor <;> simp

/-- C9: the oracle never offers Split when the number of player hands has
reached `maxHandsAfterSplit`, and never offers Double when the actionable
hand has more than two cards. -/
theorem oracle_split_double_limits (r : BlackjackRuleset) (g : BlackJackState)
    (acts : List PlayerAction)
    (h : determineAllowedActions r g = some acts) :
    (g.playerHands.length = r.maxHandsAfterSplit → PlayerAction.split ∉ acts) ∧
    (∀ hand, g.playerHands.get? g.actionableHandIndex = some hand →
      2 < hand.length → PlayerAction.double ∉ acts) := by
  unfold determineAllowedActions at h
  split at h
  case isFalse => exact absurd h (by simp)
  case isTrue hs =>
    split at h
    · exact absurd h (by simp)
    case h_2 playerHand hph =>
      split at h
      · exact absurd h (by simp)
      split at h
      · exact absurd h (by simp)
      injection h with h
      subst h
      constructor
      · intro hlen
        have hms : decide (g.playerHands.length < r.maxHandsAfterSplit) = false := by
          simp [hlen]
        simp only [hms, Bool.and_false, Bool.false_and, if_false]
        split_ifs <;> simp_all
      · intro hand hget hgt
        rw [hph] at hget
        injection hget with hget
        subst hget
        have hne : (playerHand.length == 2) = false := by
          simp only [beq_eq_false_iff_ne, ne_eq]
          omega
        simp only [hne, Bool.false_and, if_false]
        split_ifs <;> simp_all

/-- Witness for C9 at `exMaxHands` (four hands, three-card actionable hand):
the oracle offers exactly Hit and Stand. -/
theorem oracle_split_double_limits_witness :
    determineAllowedActions rules exMaxHands =
      some [PlayerAction.hit, PlayerAction.stand] ∧
    PlayerAction.split ∉ [PlayerAction.hit, PlayerAction.stand] ∧
    PlayerAction.double ∉ [PlayerAction.hit, PlayerAction.stand] := by
  have h := oracle_split_double_limits rules exMaxHands
    [PlayerAction.hit, PlayerAction.stand] (by decide)
  exact ⟨by decide, h.1 (by decide), h.2 [c5S, c5H, cKH] (by decide) (by decide)⟩

/-! ### C8: the dealer stand condition -/

theorem finishDealerHit_dealerHand (r : BlackjackRuleset) (g : BlackJackState)
    (dh sh : List Card) : (finishDealerHit r g dh sh).dealerHand = dh := by
  unfold finishDealerHit
  split_ifs <;> rfl

theorem finishDealerHit_shoe (r : BlackjackRuleset) (g : BlackJackState)
    (dh sh : List Card) : (finishDealerHit r g dh sh).shoe = sh := by
  unfold finishDealerHit
  split_ifs <;> rfl

theorem finishDealerHit_playerHands (r : BlackjackRuleset) (g : BlackJackState)
    (dh sh : List Card) :
    (finishDealerHit r g dh sh).playerHands = g.playerHands := by
  unfold finishDealerHit
  split_ifs <;> rfl

/-- C8: in a dealer-turn state, the transition returns the same state with
phase game-over — drawing no card and touching nothing else — precisely
when `dealerShouldStand` holds of the dealer hand, and that condition holds
precisely when the dealer hand is a natural, a plain total of at least 17,
or (only under `dealerStandsOnAll17`) a soft value whose high side lies
between 17 and 21.  In particular on soft 17 the dealer stands exactly when
the flag is set. -/
theorem dealerTurn_stand_iff (r : BlackjackRuleset) (g : BlackJackState)
    (hp : g.state = Phase.dealerTurn) :
    (nextState r g none = some { g with state := Phase.gameOver } ↔
      dealerShouldStand r g.dealerHand = true) ∧
    (dealerShouldStand r g.dealerHand = true ↔
      (handValue r g.dealerHand = HandValue.blackjack ∨
       (∃ n, handValue r g.dealerHand = HandValue.num n ∧ 17 ≤ n) ∨
       (r.dealerStandsOnAll17 = true ∧
        ∃ low high, handValue r g.dealerHand = HandValue.soft low high ∧
          17 ≤ high ∧ high ≤ 21))) := by
  constructor
  · constructor
    · intro h
      by_contra hns
      rw [Bool.not_eq_true] at hns
      rw [show nextState r g none = nextStateDealerTurn r g from by
        simp [nextState, hp]] at h
      unfold nextStateDealerTurn at h
      rw [hns] at h
      simp only [Bool.false_eq_true, if_false] at h
      cases hg1 : g.dealerHand.get? 1 with
      | none => rw [hg1] at h; exact absurd h (by simp)
      | some c1 =>
        rw [hg1] at h
        by_cases hfd : c1.faceDown = true
        · simp only [hfd, if_true] at h
          cases hg0 : g.dealerHand.get? 0 with
          | none => rw [hg0] at h; exact absurd h (by simp)
          | some c0 =>
            rw [hg0] at h
            injection h with h
            have hd : [c0, { c1 with faceDown := false }] = g.dealerHand := by
              have := congrArg BlackJackState.dealerHand h
              simpa [finishDealerHit_dealerHand] using this
            have h1 : ([c0, { c1 with faceDown := false }].get? 1) = some c1 := by
              rw [hd]; exact hg1
            simp only [List.get?] at h1
            injection h1 with h1
            have := congrArg Card.faceDown h1
            simp [hfd] at this
        · rw [Bool.not_eq_true] at hfd
          simp only [hfd, Bool.false_eq_true, if_false] at h
          cases hsh : g.shoe with
          | nil => rw [hsh] at h; exact absurd h (by simp)
          | cons c rest =>
            rw [hsh] at h
            injection h with h
            have hd := congrArg BlackJackState.dealerHand h
            rw [finishDealerHit_dealerHand] at hd
            have := congrArg List.length hd
            simp at this
    · intro hstand
      simp [nextState, hp, nextStateDealerTurn, hstand]
  · unfold dealerShouldStand
    cases hv : handValue r g.dealerHand with
    | blackjack => simp [hv]
    | num n => simp [hv]
    | soft l hgh =>
      simp only [hv, Bool.and_eq_true]
      constructor
      · rintro ⟨hflag, hcont⟩
        have hmem : hgh ∈ ([17, 18, 19, 20, 21] : List Nat) := by
          simpa using hcont
        simp only [List.mem_cons, List.not_mem_nil, or_false] at hmem
        exact Or.inr (Or.inr ⟨hflag, l, hgh, rfl, by omega, by omega⟩)
      · rintro (hx | ⟨n, hx, -⟩ | ⟨hflag, l', hgh', hx, h17, h21⟩)
        · exact absurd hx (by simp)
        · exact absurd hx (by simp)
        · injection hx with hx1 hx2
          subst hx2
          refine ⟨hflag, ?_⟩
          simp only [List.contains_eq_any_beq, List.any_cons, List.any_nil,
            Bool.or_eq_true, beq_iff_eq]
          omega

/-- Witness for C8: at `exSoft17` (dealer Ace + 6) the dealer stands under
`dealerStandsOnAll17 = true`, and the stand condition fails — the dealer
draws — when the flag is off. -/
theorem dealerTurn_stand_iff_witness :
    nextState rules exSoft17 none = some { exSoft17 with state := Phase.gameOver } ∧
    dealerShouldStand { rules with dealerStandsOnAll17 := false }
      exSoft17.dealerHand = false := by
  refine ⟨(dealerTurn_stand_iff rules exSoft17 rfl).1.mpr (by decide), by decide⟩

/-! ### C6: outcome classification -/

/-- C6: on a game-over state the resolver yields one outcome per player
hand (hence index-aligned with bets whenever bets are aligned with hands),
and each outcome compares the hand's high representative with the
dealer's: both naturals push; a player natural alone wins by blackjack; a
dealer natural alone loses by blackjack; two numeric values follow the
bust/higher-hand/push ladder. -/
theorem outcomes_classified (r : BlackjackRuleset) (g : BlackJackState)
    (hp : g.state = Phase.gameOver) :
    ∃ outs, determinePlayerHandOutcomes r g = some outs ∧
      outs.length = g.playerHands.length ∧
      (g.bets.length = g.playerHands.length → outs.length = g.bets.length) ∧
      ∀ i hand, g.playerHands.get? i = some hand →
        ∃ out, outs.get? i = some out ∧
          (highOf (handValue r hand) = HighValue.blackjack →
            highOf (handValue r g.dealerHand) = HighValue.blackjack →
            out = Outcome.push) ∧
          (highOf (handValue r hand) = HighValue.blackjack →
            highOf (handValue r g.dealerHand) ≠ HighValue.blackjack →
            out = Outcome.playerWin WinReason.blackjack) ∧
          (highOf (handValue r hand) ≠ HighValue.blackjack →
            highOf (handValue r g.dealerHand) = HighValue.blackjack →
            out = Outcome.playerLoss LossReason.blackjack) ∧
          (∀ pn dn, highOf (handValue r hand) = HighValue.num pn →
            highOf (handValue r g.dealerHand) = HighValue.num dn →
            out = if 21 < pn then Outcome.playerLoss LossReason.playerBust
                  else if 21 < dn then Outcome.playerWin WinReason.dealerBust
                  else if dn < pn then Outcome.playerWin WinReason.higherHand
                  else if pn < dn then Outcome.playerLoss LossReason.higherHand
                  else Outcome.push) := by
  refine ⟨g.playerHands.map fun hand =>
      classifyOutcome (highOf (handValue r hand)) (highOf (handValue r g.dealerHand)),
    by simp [determinePlayerHandOutcomes, hp], by simp, by intro hb; simp [hb], ?_⟩
  intro i hand hget
  refine ⟨classifyOutcome (highOf (handValue r hand)) (highOf (handValue r g.dealerHand)),
    by rw [List.get?_eq_getElem?] at hget; simp [hget], ?_, ?_, ?_, ?_⟩
  · intro h1 h2
    rw [h1, h2]
    rfl
  · intro h1 h2
    cases hd : highOf (handValue r g.dealerHand) with
    | blackjack => exact absurd hd h2
    | num n => rw [h1]; rfl
  · intro h1 h2
    cases hq : highOf (handValue r hand) with
    | blackjack => exact absurd hq h1
    | num n => rw [h2]; rfl
  · intro pn dn h1 h2
    rw [h1, h2]
    rfl

/-- Witness for C6 at `exGameOver` (player 19 against dealer 18). -/
theorem outcomes_classified_witness :
    ∃ outs, determinePlayerHandOutcomes rules exGameOver = some outs ∧
      outs.length = 1 := by
  obtain ⟨outs, h1, h2, -⟩ := outcomes_classified rules exGameOver rfl
  exact ⟨outs, h1, h2.trans rfl⟩

/-! ### C4: what Stand actually does -/

/-- `getNextActionableHandIndex` moves away from the current index exactly
when some later hand has exactly one card. -/
theorem getNext_ne_iff (g : BlackJackState) :
    getNextActionableHandIndex g ≠ g.actionableHandIndex ↔
    ∃ i hand, g.actionableHandIndex < i ∧ g.playerHands.get? i = some hand ∧
      hand.length = 1 := by
  unfold getNextActionableHandIndex
  cases hfind : g.playerHands.enum.find? (fun p =>
      decide (g.actionableHandIndex < p.1) && (p.2.length == 1)) with
  | none =>
    simp only [ne_eq, not_true_eq_false, false_iff, not_exists]
    intro i hand hx
    obtain ⟨hi, hget, hlen⟩ := hx
    have hmem : ((i, hand) : Nat × List Card) ∈ g.playerHands.enum :=
      List.mem_enum_iff_get?.mpr hget
    have hsome : (g.playerHands.enum.find? (fun p =>
        decide (g.actionableHandIndex < p.1) && (p.2.length == 1))).isSome = true :=
      List.find?_isSome.mpr ⟨(i, hand), hmem, by simp [hi, hlen]⟩
    rw [hfind] at hsome
    simp at hsome
  | some pr =>
    have hp := List.find?_some hfind
    have hmem := List.mem_of_find?_eq_some hfind
    rw [Bool.and_eq_true, decide_eq_true_eq] at hp
    constructor
    · intro _
      exact ⟨pr.1, pr.2, hp.1, List.mem_enum_iff_get?.mp hmem, by simpa using hp.2⟩
    · intro _
      exact ne_of_gt hp.1

/-- C4 (amended): Standing while a later split hand still has only its
opening card switches `actionableHandIndex` to it but returns phase
`player-turn` — not `dealing` as claimed; otherwise Stand advances to
`dealer-turn`.  Either way no card is dealt and shoe, hands and bets are
untouched (the result differs from the input record only in
`actionableHandIndex` and `state`). -/
theorem stand_transition (r : BlackjackRuleset) (g : BlackJackState)
    (hp : g.state = Phase.playerTurn) :
    ((∃ i hand, g.actionableHandIndex < i ∧ g.playerHands.get? i = some hand ∧
        hand.length = 1) →
      nextState r g (some PlayerAction.stand) =
        some { g with actionableHandIndex := getNextActionableHandIndex g,
                      state := Phase.playerTurn }) ∧
    ((¬ ∃ i hand, g.actionableHandIndex < i ∧ g.playerHands.get? i = some hand ∧
        hand.length = 1) →
      nextState r g (some PlayerAction.stand) =
        some { g with state := Phase.dealerTurn }) := by
  constructor
  · intro hex
    have hne := (getNext_ne_iff g).mpr hex
    simp [nextState, hp, nextStatePlayerTurn, hne]
  · intro hnex
    have hne : ¬ getNextActionableHandIndex g ≠ g.actionableHandIndex := fun hx =>
      hnex ((getNext_ne_iff g).mp hx)
    rw [not_not] at hne
    simp [nextState, hp, nextStatePlayerTurn, hne]

/-- Witness for C4 at `exStandSwitch`: hand 1 has one card, so Stand moves
the index there and stays in player-turn. -/
theorem stand_transition_witness :
    nextState rules exStandSwitch (some PlayerAction.stand) =
      some { exStandSwitch with
              actionableHandIndex := getNextActionableHandIndex exStandSwitch,
              state := Phase.playerTurn } :=
  (stand_transition rules exStandSwitch rfl).1 ⟨1, [c7S], by decide, by decide, by decide⟩

/-! ### C1 (amended part): the transition never validates the action -/

/-- C1 (amended): in a player-turn state the transition function performs
no legality validation at all: even an action outside the oracle's output
is applied and returns a new state normally (given only the structural
preconditions that a card can be drawn, the bet entry exists, and a split
hand has its two cards).  Legality enforcement is left entirely to the
driver via `determineAllowedActions`. -/
theorem playerTurn_applies_illegal_action (r : BlackjackRuleset)
    (g : BlackJackState) (a : PlayerAction) (acts : List PlayerAction)
    (hacts : determineAllowedActions r g = some acts)
    (hnot : a ∉ acts)
    (hshoe : g.shoe ≠ [])
    (hbets : g.actionableHandIndex < g.bets.length)
    (hsplit : ∀ hand, g.playerHands.get? g.actionableHandIndex = some hand →
      a = PlayerAction.split → 2 ≤ hand.length) :
    ∃ g2, nextState r g (some a) = some g2 := by
  obtain ⟨hp, ⟨hand, hget⟩, hhit, hstand⟩ := oracle_inversion r g acts hacts
  have hred : nextState r g (some a) = nextStatePlayerTurn r g a := by
    simp [nextState, hp]
  rw [hred]
  cases a with
  | hit => exact absurd hhit hnot
  | stand => exact absurd hstand hnot
  | double =>
    cases hsh : g.shoe with
    | nil => exact absurd hsh hshoe
    | cons c rest =>
      have hbne : g.bets.get? g.actionableHandIndex ≠ none := by
        rw [ne_eq, List.get?_eq_none]
        omega
      cases hb : g.bets.get? g.actionableHandIndex with
      | none => exact absurd hb hbne
      | some b =>
        dsimp only [nextStatePlayerTurn]
        rw [hsh, hget, hb]
        exact ⟨_, rfl⟩
  | split =>
    have hlen := hsplit hand hget rfl
    cases h0 : hand.get? 0 with
    | none =>
      rw [List.get?_eq_none] at h0
      omega
    | some c1 =>
      cases h1 : hand.get? 1 with
      | none =>
        rw [List.get?_eq_none] at h1
        omega
      | some c2 =>
        dsimp only [nextStatePlayerTurn]
        rw [hget]
        dsimp only
        rw [h0, h1]
        exact ⟨_, rfl⟩

/-- Witness for C1's amended statement at `exDouble3`: Double is not in the
oracle's output there, yet the transition returns a state. -/
theorem playerTurn_applies_illegal_action_witness :
    ∃ g2, nextState rules exDouble3 (some PlayerAction.double) = some g2 :=
  playerTurn_applies_illegal_action rules exDouble3 PlayerAction.double
    [PlayerAction.hit, PlayerAction.stand] (by decide) (by decide) (by decide)
    (by decide) (fun _ _ hsp => PlayerAction.noConfusion hsp)

/-! ### C10: card conservation helpers -/

/-- Setting hand `i` to itself plus a drawn card permutes the flattened
hands to the old flattened hands plus that card. -/
theorem flatten_set_perm (hands : List (List Card)) (i : Nat) (hand : List Card)
    (c : Card) (h : hands.get? i = some hand) :
    ((hands.set i (hand ++ [c])).flatten).Perm (hands.flatten ++ [c]) := by
  induction hands generalizing i with
  | nil => cases h
  | cons hd tl ih =>
    cases i with
    | zero =>
      injection h with h
      subst h
      simp only [List.set_cons_zero, List.flatten_cons, List.append_assoc]
      exact List.Perm.append_left hd List.perm_append_comm
    | succ n =>
      simp only [List.set_cons_succ, List.flatten_cons]
      rw [List.append_assoc]
      exact List.Perm.append_left hd (ih n h)

/-- Splitting a two-card hand in place rearranges but conserves the
flattened hands exactly. -/
theorem flatten_split_eq (hands : List (List Card)) (i : Nat) (c1 c2 : Card)
    (h : hands.get? i = some [c1, c2]) :
    (insertAllAt i [[c1], [c2]] (hands.eraseIdx i)).flatten = hands.flatten := by
  induction hands generalizing i with
  | nil => cases h
  | cons hd tl ih =>
    cases i with
    | zero =>
      injection h with h
      subst h
      simp [insertAllAt, List.eraseIdx]
    | succ n =>
      have hih := ih n h
      simp only [insertAllAt] at hih
      simp only [List.eraseIdx_cons_succ, insertAllAt, List.take_succ_cons,
        List.drop_succ_cons, List.cons_append, List.flatten_cons, hih]

/-- Re-flagging cards does not change their stripped identity. -/
theorem map_strip_setFlag (l : List Card) (b : Bool) :
    ((l.map fun card => { card with faceDown := b }).map strip) = l.map strip := by
  induction l with
  | nil => rfl
  | cons c t ih => simp [strip, ih]

theorem perm_draw_player (S D F FN : List (Suit × FaceValue))
    (x : Suit × FaceValue) (hF : FN.Perm (F ++ [x])) :
    (S ++ D ++ FN).Perm ((x :: S) ++ D ++ F) := by
  have h1 : (S ++ D ++ FN).Perm (S ++ D ++ (F ++ [x])) :=
    List.Perm.append_left _ hF
  have h4 : (S ++ D ++ (F ++ [x])).Perm (x :: (S ++ D ++ F)) := by
    rw [← List.append_assoc]
    exact List.perm_append_comm
  exact h1.trans h4

theorem perm_draw_dealer (S D F : List (Suit × FaceValue))
    (x : Suit × FaceValue) :
    (S ++ (D ++ [x]) ++ F).Perm ((x :: S) ++ D ++ F) := by
  rw [show S ++ (D ++ [x]) = (S ++ D) ++ [x] from (List.append_assoc S D [x]).symm]
  exact List.Perm.append_right F List.perm_append_comm

/-- The shoe relation and card conservation, packaged. -/
def CardConserved (g g' : BlackJackState) : Prop :=
  (g'.shoe = g.shoe ∨ (g'.shoe = g.shoe.tail ∧ g.shoe ≠ [])) ∧
  cardBag g' = cardBag g

theorem cardBag_eq_of_perm {g g' : BlackJackState}
    (h : ((g'.shoe ++ g'.dealerHand ++ g'.playerHands.flatten).map strip).Perm
         ((g.shoe ++ g.dealerHand ++ g.playerHands.flatten).map strip)) :
    cardBag g' = cardBag g := by
  unfold cardBag
  exact Multiset.coe_eq_coe.mpr h

theorem conserve_dealing (r : BlackjackRuleset) (g g' : BlackJackState)
    (h : nextStateDealing r g = some g') : CardConserved g g' := by
  unfold nextStateDealing at h
  split at h
  case h_3 => exact absurd h (by simp)
  case h_1 hand0 heq =>
    split at h
    case isTrue h1 =>
      split at h
      · exact absurd h (by simp)
      case h_2 c shoe hsh =>
        injection h with h
        subst h
        refine ⟨Or.inr ⟨by simp [hsh], by simp [hsh]⟩, ?_⟩
        apply cardBag_eq_of_perm
        rw [heq, hsh, List.length_eq_zero.mp h1]
        simp only [List.map_append, List.flatten, List.map_nil, List.map_cons,
          List.append_nil, List.nil_append]
        exact List.perm_append_comm
    case isFalse h1 =>
      split at h
      case isTrue h2 =>
        split at h
        · exact absurd h (by simp)
        case h_2 c shoe hsh =>
          injection h with h
          subst h
          refine ⟨Or.inr ⟨by simp [hsh], by simp [hsh]⟩, ?_⟩
          apply cardBag_eq_of_perm
          rw [heq, hsh, List.length_eq_zero.mp h2.2]
          simp only [List.map_append, List.flatten, List.map_nil, List.map_cons,
            List.append_nil, List.nil_append]
          exact List.Perm.append_right _ List.perm_append_comm
      case isFalse h2 =>
        split at h
        case isTrue h3 =>
          split at h
          · exact absurd h (by simp)
          case h_2 c shoe hsh =>
            injection h with h
            subst h
            refine ⟨Or.inr ⟨by simp [hsh], by simp [hsh]⟩, ?_⟩
            apply cardBag_eq_of_perm
            rw [heq, hsh]
            simp only [List.map_append, List.flatten, List.map_nil, List.map_cons,
              List.append_nil, List.nil_append]
            exact perm_draw_player _ _ _ _ _ (List.Perm.refl _)
        case isFalse h3 =>
          split at h
          case isTrue h4 =>
            split at h
            · exact absurd h (by simp)
            case h_2 c shoe hsh =>
              dsimp only at h
              split_ifs at h with hpk hp21
              all_goals (
                injection h with h
                subst h
                refine ⟨Or.inr ⟨by simp [hsh], by simp [hsh]⟩, ?_⟩
                apply cardBag_eq_of_perm
                rw [heq, hsh]
                simp only [List.map_append, List.flatten, List.map_nil, List.map_cons,
                  List.append_nil, List.nil_append, map_strip_setFlag]
                exact perm_draw_dealer _ _ _ _)
          case isFalse h4 => exact absurd h (by simp)
  case h_2 hd1 hd2 tl heq =>
    split at h
    · exact absurd h (by simp)
    case h_2 c shoe hsh =>
      split at h
      · exact absurd h (by simp)
      case h_2 hand hget =>
        injection h with h
        subst h
        refine ⟨Or.inr ⟨by simp [hsh], by simp [hsh]⟩, ?_⟩
        apply cardBag_eq_of_perm
        rw [hsh]
        simp only [List.map_append, List.map_cons]
        refine perm_draw_player _ _ _ _ _ ?_
        have hperm := (flatten_set_perm g.playerHands g.actionableHandIndex hand c hget).map strip
        simpa [List.map_append] using hperm

theorem conserve_player (r : BlackjackRuleset) (g g' : BlackJackState)
    (a : PlayerAction) (h : nextStatePlayerTurn r g a = some g')
    (hsplit : a = PlayerAction.split → ∀ hand,
      g.playerHands.get? g.actionableHandIndex = some hand → hand.length = 2) :
    CardConserved g g' := by
  cases a with
  | hit =>
    dsimp only [nextStatePlayerTurn] at h
    split at h
    · exact absurd h (by simp)
    case h_2 c shoe hsh =>
      split at h
      · exact absurd h (by simp)
      case h_2 hand hget =>
        injection h with h
        subst h
        refine ⟨Or.inr ⟨by simp [hsh], by simp [hsh]⟩, ?_⟩
        apply cardBag_eq_of_perm
        rw [hsh]
        simp only [List.map_append, List.map_cons]
        refine perm_draw_player _ _ _ _ _ ?_
        have hperm := (flatten_set_perm g.playerHands g.actionableHandIndex hand c hget).map strip
        simpa [List.map_append] using hperm
  | stand =>
    dsimp only [nextStatePlayerTurn] at h
    split at h
    all_goals (injection h with h; subst h; exact ⟨Or.inl rfl, rfl⟩)
  | double =>
    dsimp only [nextStatePlayerTurn] at h
    split at h
    · exact absurd h (by simp)
    case h_2 c shoe hsh =>
      split at h
      · exact absurd h (by simp)
      case h_2 hand hget =>
        split at h
        · exact absurd h (by simp)
        case h_2 bet0 hbet =>
          injection h with h
          subst h
          refine ⟨Or.inr ⟨by simp [hsh], by simp [hsh]⟩, ?_⟩
          apply cardBag_eq_of_perm
          rw [hsh]
          simp only [List.map_append, List.map_cons]
          refine perm_draw_player _ _ _ _ _ ?_
          have hperm := (flatten_set_perm g.playerHands g.actionableHandIndex hand c hget).map strip
          simpa [List.map_append] using hperm
  | split =>
    dsimp only [nextStatePlayerTurn] at h
    split at h
    · exact absurd h (by simp)
    case h_2 hand hget =>
      split at h
      case h_2 => exact absurd h (by simp)
      case h_1 c1 c2 h0 h1 =>
        injection h with h
        subst h
        have hlen : hand.length = 2 := hsplit rfl hand hget
        have hhand : hand = [c1, c2] := by
          cases hand with
          | nil => simp at h0
          | cons a t =>
            cases t with
            | nil => simp at h1
            | cons b t2 =>
              cases t2 with
              | nil =>
                simp only [List.get?] at h0 h1
                injection h0 with h0
                injection h1 with h1
                rw [h0, h1]
              | cons d t3 => simp at hlen
        refine ⟨Or.inl rfl, ?_⟩
        have hfl := flatten_split_eq g.playerHands g.actionableHandIndex c1 c2
          (by rw [← hhand]; exact hget)
        simp [cardBag, hfl]

theorem conserve_dealer (r : BlackjackRuleset) (g g' : BlackJackState)
    (h : nextStateDealerTurn r g = some g')
    (hlen : g.dealerHand.length ≤ 2) :
    CardConserved g g' ∧
    (∀ c1, g.dealerHand.get? 1 = some c1 → c1.faceDown = true →
      g'.shoe = g.shoe) := by
  unfold nextStateDealerTurn at h
  split_ifs at h with hstand
  · injection h with h
    subst h
    exact ⟨⟨Or.inl rfl, rfl⟩, fun _ _ _ => rfl⟩
  · split at h
    · exact absurd h (by simp)
    next c1 hg1 =>
      split at h
      next hfd =>
        split at h
        · exact absurd h (by simp)
        next c0 hg0 =>
          injection h with h
          subst h
          have hdh : g.dealerHand = [c0, c1] := by
            cases hdl : g.dealerHand with
            | nil => rw [hdl] at hg1; simp at hg1
            | cons a t =>
              cases t with
              | nil => rw [hdl] at hg1; simp at hg1
              | cons b t2 =>
                rw [hdl] at hg0 hg1 hlen
                simp only [List.get?] at hg0 hg1
                injection hg0 with hg0
                injection hg1 with hg1
                cases t2 with
                | nil => rw [hg0, hg1]
                | cons d t3 => simp at hlen
          refine ⟨⟨Or.inl (finishDealerHit_shoe r g _ _), ?_⟩,
            fun _ _ _ => finishDealerHit_shoe r g _ _⟩
          apply cardBag_eq_of_perm
          rw [finishDealerHit_shoe, finishDealerHit_dealerHand,
            finishDealerHit_playerHands, hdh]
          simp only [List.map_append, List.map_cons, List.map_nil, strip]
          exact List.Perm.refl _
      next hfd =>
        split at h
        · exact absurd h (by simp)
        next c shoe hsh =>
          injection h with h
          subst h
          refine ⟨⟨Or.inr ⟨by simp [finishDealerHit_shoe, hsh], by simp [hsh]⟩, ?_⟩,
            ?_⟩
          · apply cardBag_eq_of_perm
            rw [finishDealerHit_shoe, finishDealerHit_dealerHand,
              finishDealerHit_playerHands, hsh]
            simp only [List.map_append, List.map_cons, List.map_nil]
            exact perm_draw_dealer _ _ _ _
          · intro c1x hg1x hfdx
            rw [hg1] at hg1x
            injection hg1x with he
            rw [← he] at hfdx
            exact absurd hfdx hfd

/-- C10 (amended): whenever the transition returns normally, the shoe is
either unchanged or loses exactly its first card, and — provided Split is
only applied to a two-card hand and the dealer reveal only happens on a
two-card dealer hand — the multiset of cards across shoe, dealer hand and
player hands (ignoring the face-down flag) is preserved; the hole-card
reveal in particular removes no card from the shoe. -/
theorem nextState_card_conservation (r : BlackjackRuleset)
    (g g' : BlackJackState) (a : Option PlayerAction)
    (h : nextState r g a = some g')
    (hsplit : g.state = Phase.playerTurn → a = some PlayerAction.split →
      ∀ hand, g.playerHands.get? g.actionableHandIndex = some hand →
        hand.length = 2)
    (hdealer : g.state = Phase.dealerTurn → g.dealerHand.length ≤ 2) :
    (g'.shoe = g.shoe ∨ (g'.shoe = g.shoe.tail ∧ g.shoe ≠ [])) ∧
    cardBag g' = cardBag g ∧
    (g.state = Phase.dealerTurn → ∀ c1, g.dealerHand.get? 1 = some c1 →
      c1.faceDown = true → g'.shoe = g.shoe) := by
  unfold nextState at h
  split at h
  next heq =>
    obtain ⟨hA, hB⟩ := conserve_dealing r g g' h
    refine ⟨hA, hB, ?_⟩
    intro hd
    rw [heq] at hd
    exact Phase.noConfusion hd
  next heq =>
    split at h
    · exact absurd h (by simp)
    next _ av =>
      obtain ⟨hA, hB⟩ := conserve_player r g g' av h
        (fun haeq => hsplit heq (by rw [haeq]))
      refine ⟨hA, hB, ?_⟩
      intro hd
      rw [heq] at hd
      exact Phase.noConfusion hd
  next heq =>
    obtain ⟨⟨hA, hB⟩, hC⟩ := conserve_dealer r g g' h (hdealer heq)
    exact ⟨hA, hB, fun _ => hC⟩
  next heq => exact absurd h (by simp)

/-- Dealer-turn state whose hole card is still face down (5 + hidden King). -/
def exReveal : BlackJackState where
  shoe := [cKS]
  playerHands := [[cTS, c9H]]
  actionableHandIndex := 0
  dealerHand := [c5S, ⟨Suit.hearts, FaceValue.king, true⟩]
  state := Phase.dealerTurn
  startingBet := 100
  bets := [100]

/-- The state after the hole-card reveal: same shoe, card turned face up. -/
def exRevealAfter : BlackJackState where
  shoe := [cKS]
  playerHands := [[cTS, c9H]]
  actionableHandIndex := 0
  dealerHand := [c5S, cKH]
  state := Phase.dealerTurn
  startingBet := 100
  bets := [100]

/-- Witness for C10's amended statement at the hole-card reveal: the card
multiset is preserved and no card leaves the shoe. -/
theorem nextState_card_conservation_witness :
    cardBag exRevealAfter = cardBag exReveal ∧
    exRevealAfter.shoe = exReveal.shoe := by
  have h := nextState_card_conservation rules exReveal exRevealAfter none
    (by decide) (fun hp => absurd hp (by decide)) (fun _ => by decide)
  exact ⟨h.2.1, h.2.2 rfl ⟨Suit.hearts, FaceValue.king, true⟩ (by decide) rfl⟩


end Blackjack
